import Mathlib

/-!
Verification of the reading-graph repository: a shallow embedding of the
similarity graph builder (src/src/BookGraph.jsx, `graphData`), the node-click
selection state machine (`handleNodeClick`, `handleReset`), the quotes-panel
bookmark toggle (src/src/components/LoadingScreen.jsx, `handleBookmarkClick`),
and the upload filter (`processFile` of the upload page).

Conventions of the embedding: JS numbers are rationals; a JS-falsy string
field (undefined, null, empty) is `Option.none`; a JS `Date` parse result is
the inductive `DateVal` (`missing` for a falsy input, `invalid` for a string
`new Date` cannot parse, `ts` for a parsed millisecond timestamp); a JS array
is a `List`; a JS `Set` is a `List` read through `contains`.
-/

namespace ReadingGraph

/-- A theme annotation on a book, mirroring the two shapes the code accepts
with `typeof t === String ? t : t.theme`: a bare string, or an object with a
`theme` field and a `quotes` array. -/
inductive ThemeEntry where
  | str (s : String)
  | obj (theme : String) (quotes : List String)
deriving DecidableEq, Repr

/-- The `theme` name the code extracts from an entry. -/
def ThemeEntry.name : ThemeEntry → String
  | .str s => s
  | .obj t _ => t

/-- The `quotes` array of an entry; a bare string has none (`t.quotes` is
undefined and the code falls back to an empty array). -/
def ThemeEntry.quotesOf : ThemeEntry → List String
  | .str _ => []
  | .obj _ qs => qs

/-- A parsed `dateRead` field: `missing` when the field is JS-falsy,
`invalid` when `new Date` yields an invalid date (NaN timestamp), `ts ms`
when it parses to a millisecond timestamp. -/
inductive DateVal where
  | missing
  | invalid
  | ts (ms : ℚ)
deriving DecidableEq, Repr

/-- A book record as the graph page holds it. `id`, `title`, `author` and
`rating` are `none` when JS-falsy. -/
structure Book where
  id : Option String
  title : Option String
  author : Option String
  rating : Option String
  dateRead : DateVal
  themes : List ThemeEntry
  quotes : List String
deriving DecidableEq, Repr

/-- Theme names of a book: `(book.themes || []).map(t => typeof t === String ? t : t.theme)`. -/
def themeNames (b : Book) : List String :=
  b.themes.map ThemeEntry.name

/-- The node id of a book at a given index: `book.id || book-index`. -/
def nodeIdOf (b : Book) (index : ℕ) : String :=
  b.id.getD ("book-" ++ toString index)

/-- The last-30-days check of `graphData`: false on a falsy `dateRead`, false
on an invalid date (NaN compares false), else `daysDiff <= 30 && daysDiff >= 0`
where `daysDiff = (now - readDate) / (1000*60*60*24)`. -/
def isRecentlyRead (now : ℚ) : DateVal → Bool
  | .missing => false
  | .invalid => false
  | .ts d =>
    let daysDiff := (now - d) / (1000 * 60 * 60 * 24)
    decide (daysDiff ≤ 30) && decide (0 ≤ daysDiff)

/-- A graph node as `graphData` builds it from one book. -/
structure GraphNode where
  id : String
  name : String
  title : String
  size : ℚ
  rating : String
  author : String
  dateRead : DateVal
  isRecent : Bool
  themes : List ThemeEntry
  isRelated : Bool
  isSelected : Bool
  opacity : ℚ
deriving DecidableEq, Repr

/-- Node construction for one book at one index, from the `books.map` of
`graphData`. `sel` is the id of the selected node if any, `rel` the current
`relatedNodeIds` set. -/
def mkNode (sel : Option String) (rel : List String) (now : ℚ)
    (book : Book) (index : ℕ) : GraphNode :=
  let nodeId := nodeIdOf book index
  let isRelated : Bool := match sel with
    | some _ => rel.contains nodeId
    | none => true
  let isSelected : Bool := match sel with
    | some sid => nodeId == sid
    | none => false
  { id := nodeId
    name := book.title.getD "Untitled"
    title := book.title.getD "Untitled"
    size := 6
    rating := book.rating.getD "Not rated"
    author := book.author.getD "Unknown"
    dateRead := book.dateRead
    isRecent := isRecentlyRead now book.dateRead
    themes := book.themes
    isRelated := isRelated
    isSelected := isSelected
    opacity := match sel with
      | some _ => if isRelated || isSelected then 1 else 1/5
      | none => 1 }

/-- The indexed `books.map((book, index) => ...)` producing the node list. -/
def buildNodes (sel : Option String) (rel : List String) (now : ℚ) :
    List Book → ℕ → List GraphNode
  | [], _ => []
  | b :: bs, i => mkNode sel rel now b i :: buildNodes sel rel now bs (i + 1)

/-- A link as `graphData` builds it between two nodes. -/
structure Link where
  source : String
  target : String
  theme : String
  strength : ℚ
  color : String
  isVisible : Bool
deriving DecidableEq, Repr

/-- The fixed theme-to-color table of `graphData`. -/
def themeColors (t : String) : Option String :=
  if t == "Identity & Self" then some "#9370DB"
  else if t == "Emotional Health" then some "#87CEEB"
  else if t == "Love & Relationships" then some "#FF1493"
  else if t == "Power & Strategy" then some "#8B0000"
  else if t == "Existentialism" then some "#00CED1"
  else if t == "Science & Universe" then some "#4169E1"
  else if t == "War & Conflict" then some "#DC143C"
  else if t == "Time & Memory" then some "#FF69B4"
  else if t == "Morality & Ethics" then some "#32CD32"
  else if t == "Human Nature" then some "#FFA500"
  else if t == "Dystopia" then some "#696969"
  else none

/-- The book lookup inside the link loop: `books.find(b => (b.id || book-idx) === nid)`.
The loop passes its own index `idx` into the fallback for every candidate
book, exactly as the source does. -/
def findBook (books : List Book) (idx : ℕ) (nid : String) : Option Book :=
  books.find? (fun b => nodeIdOf b idx == nid)

/-- The `isVisible` conditional of the link construction: with a selection,
both endpoints must be in the related set; without one, always visible. -/
def visFor (sel : Option String) (rel : List String) (id1 id2 : String) : Bool :=
  match sel with
  | some _ => rel.contains id1 && rel.contains id2
  | none => true

/-- The body of the double loop of `graphData` for one index pair `(i, j)`:
zero or one link between `node1` and `node2`. -/
def linkFor (books : List Book) (sel : Option String) (rel : List String)
    (i j : ℕ) (node1 node2 : GraphNode) : List Link :=
  match findBook books i node1.id, findBook books j node2.id with
  | some book1, some book2 =>
    let themes1 := themeNames book1
    let themes2 := themeNames book2
    let sharedThemes := themes1.filter (fun t => themes2.contains t)
    match sharedThemes with
    | [] => []
    | linkTheme :: _ =>
      [{ source := node1.id
         target := node2.id
         theme := linkTheme
         strength := 7/10 + sharedThemes.length * (1/10)
         color := (themeColors linkTheme).getD "#00CED1"
         isVisible := visFor sel rel node1.id node2.id }]
  | _, _ => []

/-- The inner loop `for (j = i + 1; ...)` of `graphData`, walking the nodes
after position `i`; `j` is the index of the head of `rest`. -/
def innerLoop (books : List Book) (sel : Option String) (rel : List String)
    (i : ℕ) (node1 : GraphNode) (j : ℕ) : List GraphNode → List Link
  | [] => []
  | node2 :: rest =>
    linkFor books sel rel i j node1 node2 ++
      innerLoop books sel rel i node1 (j + 1) rest

/-- The outer loop `for (i = 0; ...)` of `graphData`; `i` is the index of the
head of the node list argument. -/
def outerLoop (books : List Book) (sel : Option String) (rel : List String)
    (i : ℕ) : List GraphNode → List Link
  | [] => []
  | node1 :: rest =>
    innerLoop books sel rel i node1 (i + 1) rest ++
      outerLoop books sel rel (i + 1) rest

/-- The node and link lists `graphData` returns. -/
structure GraphData where
  nodes : List GraphNode
  links : List Link
deriving DecidableEq, Repr

/-- The `graphData` memo of BookGraph: empty on an empty book list, else the
node list and, when at least two nodes exist, the links of the double loop. -/
def graphData (books : List Book) (sel : Option String) (rel : List String)
    (now : ℚ) : GraphData :=
  if books.isEmpty then ⟨[], []⟩
  else
    let nodes := buildNodes sel rel now books 0
    let links := if 2 ≤ nodes.length then outerLoop books sel rel 0 nodes else []
    ⟨nodes, links⟩

/-- The selection state the graph component owns: `selectedNode` (only its id
matters to the core), the `relatedNodeIds` set, the book shown in the quotes
panel, and the enrichment-in-flight flag. -/
structure SelState where
  selectedNodeId : Option String
  relatedNodeIds : List String
  selectedBook : Option Book
  isAnalyzing : Bool
deriving DecidableEq, Repr

/-- The state of the component before any interaction. -/
def initState : SelState :=
  { selectedNodeId := none, relatedNodeIds := [], selectedBook := none,
    isAnalyzing := false }

/-- The `handleReset` handler: clears the selected node, the related set and
the panel book. -/
def handleReset (st : SelState) : SelState :=
  { st with selectedNodeId := none, relatedNodeIds := [], selectedBook := none }

/-- The book lookup at the start of `handleNodeClick`:
`books.find(b => (b.id || book-books.indexOf(b)) === node.id)`; here the
fallback index is the position of the candidate itself. -/
def findBookByNodeId (books : List Book) (nid : String) : Option Book :=
  books.find? (fun b => nodeIdOf b (books.indexOf b) == nid)

/-- The `books.forEach((bookItem, index) => ...)` accumulating the ids of
books that share a theme name with the selected one; `i` is the index of the
head of the book list argument. -/
def relatedFrom (selectedThemes : List String) (nid : String) :
    List Book → ℕ → List String
  | [], _ => []
  | b :: bs, i =>
    let bookId := nodeIdOf b i
    if bookId == nid then relatedFrom selectedThemes nid bs (i + 1)
    else if selectedThemes.any (fun t => (themeNames b).contains t) then
      bookId :: relatedFrom selectedThemes nid bs (i + 1)
    else relatedFrom selectedThemes nid bs (i + 1)

/-- The related-set computation of `handleNodeClick`: the clicked id itself
plus every book sharing a theme with `bookToUse`. -/
def computeRelated (books : List Book) (nid : String) (bookToUse : Book) :
    List String :=
  nid :: relatedFrom (themeNames bookToUse) nid books 0

/-- Merging an enrichment result into the clicked book: on success (`some ts`)
the returned themes replace the theme list and their quotes are flattened; on
failure (`none`, the catch branch) the book is left as it was. -/
def mergeEnrichment (book : Book) : Option (List ThemeEntry) → Book
  | some ts => { book with themes := ts, quotes := ts.flatMap ThemeEntry.quotesOf }
  | none => book

/-- The `handleNodeClick` handler as the list of states observable from the
outside, in order. A click on the already-selected node resets. Otherwise the
synchronous prefix sets the selected id; when the clicked book has no themes
the handler awaits the enrichment call, so the state with the selected id set,
`isAnalyzing` true and the OLD related set is observable while the call is in
flight, and the completed state follows; when the book already has themes the
whole handler is synchronous and only the completed state is observable.
`enrich` is the outcome of the `analyzeBook` call: `none` for a thrown error,
`some ts` for a result with theme list `ts`. -/
def handleNodeClick (books : List Book) (st : SelState) (nodeId : String)
    (enrich : Option (List ThemeEntry)) : List SelState :=
  if st.selectedNodeId == some nodeId then
    [handleReset st]
  else
    let st1 := { st with selectedNodeId := some nodeId }
    match findBookByNodeId books nodeId with
    | none => [st1]
    | some book =>
      if book.themes.isEmpty then
        let inFlight := { st1 with isAnalyzing := true }
        let bookToUse := mergeEnrichment book enrich
        let done := { inFlight with
          selectedBook := some bookToUse
          isAnalyzing := false
          relatedNodeIds := computeRelated books nodeId bookToUse }
        [inFlight, done]
      else
        [{ st1 with
            selectedBook := some book
            relatedNodeIds := computeRelated books nodeId book }]

/-- A bookmark as the quotes panel stores it in the `bookmarkedQuotes` key. -/
structure Bookmark where
  key : String
  quote : String
  theme : String
  bookTitle : String
  bookAuthor : String
  dateAdded : String
deriving DecidableEq, Repr

/-- The composite key the panel builds for one quote of one book. -/
def bookmarkKey (title author quote theme : String) : String :=
  title ++ "|||" ++ author ++ "|||" ++ quote ++ "|||" ++ theme

/-- An element of the JS `Set` behind the `bookmarkedQuotes` state. In one
session the panel adds key strings; the rehydrating effect instead puts the
whole parsed bookmark objects into the set (`new Set(bookmarks)`). JS `Set`
membership (SameValueZero) never identifies a string with an object, which
this sum type mirrors. -/
inductive BmElem where
  | str (s : String)
  | obj (b : Bookmark)
deriving DecidableEq, Repr

/-- The quotes-panel state relevant to bookmarking: the in-memory set and the
stored list behind the `bookmarkedQuotes` localStorage key. -/
structure PanelState where
  bookmarkedQuotes : List BmElem
  stored : List Bookmark
deriving DecidableEq, Repr

/-- The load effect of the panel: `setBookmarkedQuotes(new Set(JSON.parse(saved)))`,
putting the parsed bookmark OBJECTS into the set. -/
def loadBookmarkedQuotes (stored : List Bookmark) : PanelState :=
  { bookmarkedQuotes := stored.map BmElem.obj, stored := stored }

/-- The `handleBookmarkClick` handler for the panel of the book named
`(title, author)`: if the key string is in the in-memory set, the stored
entry with that key is removed and the key deleted from the set; otherwise a
new bookmark object is appended to storage and the key string added to the
set. -/
def handleBookmarkClick (title author : String) (st : PanelState)
    (quote theme dateAdded : String) : PanelState :=
  let key := bookmarkKey title author quote theme
  if st.bookmarkedQuotes.contains (BmElem.str key) then
    { bookmarkedQuotes := st.bookmarkedQuotes.filter (fun e => e ≠ BmElem.str key)
      stored := st.stored.filter (fun b => b.key ≠ key) }
  else
    { bookmarkedQuotes := st.bookmarkedQuotes ++ [BmElem.str key]
      stored := st.stored ++
        [{ key := key, quote := quote, theme := theme, bookTitle := title,
           bookAuthor := author, dateAdded := dateAdded }] }

/-- The result of JS `parseFloat` on a rating string, carried in parsed form:
`nan` when the string has no leading numeric prefix (such as the default
string Not rated), `num q` otherwise. -/
inductive JsNumber where
  | nan
  | num (q : ℚ)
deriving DecidableEq, Repr

/-- The `parseFloat(book.rating) || 0` idiom of the upload filter: a falsy
number (NaN or zero) becomes 0, any other number passes through. -/
def parseFloatOr0 : JsNumber → ℚ
  | .nan => 0
  | .num q => if q = 0 then 0 else q

/-- A row the upload page parses out of the CSV. -/
structure ParsedBook where
  id : String
  title : String
  author : String
  rating : JsNumber
  dateRead : String
  bookshelves : String
  exclusiveShelf : String
deriving DecidableEq, Repr

/-- The read-book filter of `processFile`: keep a book when
`(parseFloat(book.rating) || 0) > 0`. -/
def filterReadBooks (parsedBooks : List ParsedBook) : List ParsedBook :=
  parsedBooks.filter (fun book => decide (0 < parseFloatOr0 book.rating))

/-- What `processFile` does after parsing: raise an error, or navigate to the
graph page with a book list. -/
inductive UploadOutcome where
  | error (msg : String)
  | navigate (books : List ParsedBook)
deriving DecidableEq, Repr

/-- The decision logic of `processFile` after `parseCSV` succeeds: error when
nothing parsed, error when no book survives the rating filter, otherwise
navigate to the graph page with the filtered list. -/
def processFile (parsedBooks : List ParsedBook) : UploadOutcome :=
  if parsedBooks.isEmpty then
    .error "No valid books found in the CSV file"
  else
    let filteredReadBooks := filterReadBooks parsedBooks
    if filteredReadBooks.isEmpty then
      .error "No read books found. Please upload a CSV with books that have ratings."
    else
      .navigate filteredReadBooks

/-- A book with the given id and bare-string theme names; the other fields
are fixed harmless values. -/
def mkBook (id : Option String) (themes : List String) : Book :=
  { id := id, title := some "T", author := some "A", rating := none,
    dateRead := .missing, themes := themes.map ThemeEntry.str, quotes := [] }

/-- Five books, pairwise sharing the theme X: every book has four candidate
partners, so a top-two-or-three selection could keep at most three edges per
book. -/
def fiveBooksOneTheme : List Book :=
  [mkBook (some "b0") ["X"], mkBook (some "b1") ["X"], mkBook (some "b2") ["X"],
   mkBook (some "b3") ["X"], mkBook (some "b4") ["X"]]

/-- Pairs each book with its input position. -/
def enumerateBooks : List Book → ℕ → List (ℕ × Book)
  | [], _ => []
  | b :: bs, i => (i, b) :: enumerateBooks bs (i + 1)

/-- Following the claim text (the spec-side algorithm, for comparison with
the source): similarityScore of two books is the number of shared theme
names, the cardinality of the set intersection by exact name match. -/
def similarityScore (b1 b2 : Book) : ℕ :=
  (((themeNames b1).filter (fun t => (themeNames b2).contains t)).dedup).length

/-- Stable descending insertion by score: an element is placed after every
earlier element whose score is at least its own, so equal scores keep the
order of insertion. -/
def insertByScoreDesc (score : ℕ × Book → ℕ) (x : ℕ × Book) :
    List (ℕ × Book) → List (ℕ × Book)
  | [] => [x]
  | y :: ys =>
    if score y < score x then x :: y :: ys
    else y :: insertByScoreDesc score x ys

/-- Following the claim text (the spec-side algorithm): the candidate
partners of the source book `src` sitting at position `idx`, every other
book, ranked by similarityScore against `src` descending with a stable
tie-break preserving input order. -/
def specRankedPartners (books : List Book) (idx : ℕ) (src : Book) :
    List (ℕ × Book) :=
  ((enumerateBooks books 0).filter (fun p => p.1 ≠ idx)).foldl
    (fun acc p => insertByScoreDesc (fun q => similarityScore src q.2) p acc) []

/-- Following the claim text (the spec-side algorithm): the node ids of the
top k ranked partners of `src` at position `idx`. -/
def specTopKIds (books : List Book) (idx : ℕ) (src : Book) (k : ℕ) :
    List String :=
  ((specRankedPartners books idx src).take k).map (fun p => nodeIdOf p.2 p.1)

/-- Two books with no id (both node ids are synthesized) and disjoint themes. -/
def twoBooksNoId : List Book :=
  [mkBook none ["X"], mkBook none ["Y"]]

/-- Two books where the first lists the shared theme name twice. -/
def dupThemeBooks : List Book :=
  [mkBook (some "a") ["X", "X"], mkBook (some "b") ["X"]]

/-- One not-yet-enriched book (empty theme list). -/
def oneUnenrichedBook : List Book :=
  [mkBook (some "b") []]

/-- The scenario book list of the spec: A and B share X, B and C share Y. -/
def scenarioBooks : List Book :=
  [mkBook (some "a") ["X"], mkBook (some "b") ["X", "Y"], mkBook (some "c") ["Y"]]

/-- The link the builder creates between the first two scenario books; the
strength expression is written exactly as the loop body builds it. -/
def linkAB : Link :=
  { source := "a", target := "b", theme := "X",
    strength := 7/10 + ((1 : ℕ) : ℚ) * (1/10), color := "#00CED1",
    isVisible := true }

/-- The link the builder creates between the last two scenario books. -/
def linkBC : Link :=
  { source := "b", target := "c", theme := "Y",
    strength := 7/10 + ((1 : ℕ) : ℚ) * (1/10), color := "#00CED1",
    isVisible := true }

/-- The state a click on scenario node a settles in. -/
def scenarioClickDone : SelState :=
  { selectedNodeId := some "a", relatedNodeIds := ["a", "b"],
    selectedBook := some (mkBook (some "a") ["X"]), isAnalyzing := false }

/-- A stored bookmark list with one entry, as left behind by a previous
session that bookmarked quote Q of theme Th in book T by A. -/
def oneStoredBookmark : List Bookmark :=
  [{ key := bookmarkKey "T" "A" "Q" "Th", quote := "Q", theme := "Th",
     bookTitle := "T", bookAuthor := "A", dateAdded := "2026-01-01" }]

/-- Two links join the same unordered node pair. -/
def samePair (l1 l2 : Link) : Prop :=
  (l1.source = l2.source ∧ l1.target = l2.target) ∨
    (l1.source = l2.target ∧ l1.target = l2.source)

theorem mkNode_id (sel : Option String) (rel : List String) (now : ℚ)
    (b : Book) (i : ℕ) : (mkNode sel rel now b i).id = nodeIdOf b i := rfl

theorem mkNode_opacity_none (rel : List String) (now : ℚ) (b : Book) (i : ℕ) :
    (mkNode none rel now b i).opacity = 1 := rfl

theorem mkNode_isRelated_some (sid : String) (rel : List String) (now : ℚ)
    (b : Book) (i : ℕ) :
    (mkNode (some sid) rel now b i).isRelated = rel.contains (nodeIdOf b i) := rfl

theorem mkNode_opacity_some (sid : String) (rel : List String) (now : ℚ)
    (b : Book) (i : ℕ) :
    (mkNode (some sid) rel now b i).opacity =
      if (mkNode (some sid) rel now b i).isRelated ||
          (mkNode (some sid) rel now b i).isSelected then 1 else 1/5 := rfl

theorem mem_buildNodes {sel : Option String} {rel : List String} {now : ℚ} :
    ∀ {bs : List Book} {k : ℕ} {n : GraphNode},
      n ∈ buildNodes sel rel now bs k → ∃ b ∈ bs, ∃ i, n = mkNode sel rel now b i := by
  intro bs
  induction bs with
  | nil => intro k n h; exact absurd h (List.not_mem_nil _)
  | cons b bs ih =>
      intro k n h
      rcases List.mem_cons.mp h with h | h
      · exact ⟨b, List.mem_cons_self b bs, k, h⟩
      · obtain ⟨b', hb', i, hi⟩ := ih h
        exact ⟨b', List.mem_cons_of_mem b hb', i, hi⟩

theorem mem_graphData_nodes {books : List Book} {sel : Option String}
    {rel : List String} {now : ℚ} {n : GraphNode}
    (h : n ∈ (graphData books sel rel now).nodes) :
    ∃ b ∈ books, ∃ i, n = mkNode sel rel now b i := by
  unfold graphData at h
  split at h
  · exact absurd h (List.not_mem_nil _)
  · exact mem_buildNodes h

theorem mem_graphData_links {books : List Book} {sel : Option String}
    {rel : List String} {now : ℚ} {l : Link}
    (h : l ∈ (graphData books sel rel now).links) :
    l ∈ outerLoop books sel rel 0 (buildNodes sel rel now books 0) := by
  unfold graphData at h
  split at h
  · exact absurd h (List.not_mem_nil _)
  · simp only at h
    split at h
    · exact h
    · exact absurd h (List.not_mem_nil _)

theorem linkFor_mem_spec {books : List Book} {sel : Option String}
    {rel : List String} {i j : ℕ} {n1 n2 : GraphNode} {l : Link}
    (h : l ∈ linkFor books sel rel i j n1 n2) :
    l.source = n1.id ∧ l.target = n2.id ∧
    l.isVisible = visFor sel rel n1.id n2.id ∧
    ∃ book1 book2 rest,
      findBook books i n1.id = some book1 ∧
      findBook books j n2.id = some book2 ∧
      (themeNames book1).filter (fun t => (themeNames book2).contains t) =
        l.theme :: rest ∧
      l.strength = 7/10 + ((l.theme :: rest).length : ℚ) * (1/10) := by
  unfold linkFor at h
  split at h
  next book1 book2 hb1 hb2 =>
    dsimp only at h
    split at h
    next => exact absurd h (List.not_mem_nil _)
    next linkTheme tail hshared =>
      rw [List.mem_singleton] at h
      subst h
      refine ⟨rfl, rfl, rfl, book1, book2, tail, hb1, hb2, hshared, ?_⟩
      rw [hshared]
  next => exact absurd h (List.not_mem_nil _)

theorem mem_innerLoop {books : List Book} {sel : Option String}
    {rel : List String} {i : ℕ} {n1 : GraphNode} :
    ∀ {rest : List GraphNode} {j : ℕ} {l : Link},
      l ∈ innerLoop books sel rel i n1 j rest →
      ∃ j2 n2, n2 ∈ rest ∧ l ∈ linkFor books sel rel i j2 n1 n2 := by
  intro rest
  induction rest with
  | nil => intro j l h; exact absurd h (List.not_mem_nil _)
  | cons n2 rest ih =>
      intro j l h
      rcases List.mem_append.mp h with h | h
      · exact ⟨j, n2, List.mem_cons_self n2 rest, h⟩
      · obtain ⟨j2, n2', hn2', hl⟩ := ih h
        exact ⟨j2, n2', List.mem_cons_of_mem n2 hn2', hl⟩

theorem mem_outerLoop {books : List Book} {sel : Option String}
    {rel : List String} :
    ∀ {ns : List GraphNode} {i : ℕ} {l : Link},
      l ∈ outerLoop books sel rel i ns →
      ∃ i2 j2 n1 n2, n1 ∈ ns ∧ n2 ∈ ns ∧ l ∈ linkFor books sel rel i2 j2 n1 n2 := by
  intro ns
  induction ns with
  | nil => intro i l h; exact absurd h (List.not_mem_nil _)
  | cons n1 rest ih =>
      intro i l h
      rcases List.mem_append.mp h with h | h
      · obtain ⟨j2, n2, hn2, hl⟩ := mem_innerLoop h
        exact ⟨i, j2, n1, n2, List.mem_cons_self n1 rest,
          List.mem_cons_of_mem n1 hn2, hl⟩
      · obtain ⟨i2, j2, n1', n2', h1, h2, hl⟩ := ih h
        exact ⟨i2, j2, n1', n2', List.mem_cons_of_mem n1 h1,
          List.mem_cons_of_mem n1 h2, hl⟩

theorem findBook_eq_some {books : List Book} {idx : ℕ} {nid : String} {bk : Book}
    (hpres : ∀ b ∈ books, b.id.isSome)
    (h : findBook books idx nid = some bk) : bk ∈ books ∧ bk.id = some nid := by
  have hmem := List.mem_of_find?_eq_some h
  have hp := List.find?_some h
  obtain ⟨s, hs⟩ := Option.isSome_iff_exists.mp (hpres bk hmem)
  have hsn : s = nid := by simpa [nodeIdOf, hs] using hp
  exact ⟨hmem, by rw [hs, hsn]⟩

theorem book_id_inj {books : List Book} (hnodup : (books.map Book.id).Nodup)
    {b1 b2 : Book} (h1 : b1 ∈ books) (h2 : b2 ∈ books) (h : b1.id = b2.id) :
    b1 = b2 :=
  List.inj_on_of_nodup_map hnodup h1 h2 h

theorem findBook_of_mem {books : List Book} {idx : ℕ} {s : String} {ba : Book}
    (hpres : ∀ b ∈ books, b.id.isSome) (hnodup : (books.map Book.id).Nodup)
    (hmem : ba ∈ books) (hid : ba.id = some s) :
    findBook books idx s = some ba := by
  cases hfind : findBook books idx s with
  | none =>
      exfalso
      have := List.find?_eq_none.mp hfind ba hmem
      apply this
      simp [nodeIdOf, hid]
  | some bk =>
      obtain ⟨hbkmem, hbkid⟩ := findBook_eq_some hpres hfind
      have hba : bk = ba := book_id_inj hnodup hbkmem hmem (by rw [hbkid, hid])
      rw [hba]

theorem buildNodes_length {sel : Option String} {rel : List String} {now : ℚ} :
    ∀ (bs : List Book) (k : ℕ), (buildNodes sel rel now bs k).length = bs.length := by
  intro bs
  induction bs with
  | nil => intro k; rfl
  | cons b bs ih => intro k; simp [buildNodes, ih]

theorem buildNodes_getElem? {sel : Option String} {rel : List String} {now : ℚ} :
    ∀ (bs : List Book) (k m : ℕ),
      (buildNodes sel rel now bs k)[m]? =
        bs[m]?.map (fun b => mkNode sel rel now b (k + m)) := by
  intro bs
  induction bs with
  | nil => intro k m; simp [buildNodes]
  | cons b bs ih =>
      intro k m
      cases m with
      | zero => simp [buildNodes]
      | succ m =>
          have harith : k + 1 + m = k + (m + 1) := by omega
          simp [buildNodes, ih, harith]

theorem linkFor_subset_innerLoop {books : List Book} {sel : Option String}
    {rel : List String} {i : ℕ} {n1 : GraphNode} :
    ∀ {rest : List GraphNode} {j m : ℕ} {n2 : GraphNode},
      rest[m]? = some n2 →
      ∀ {l : Link}, l ∈ linkFor books sel rel i (j + m) n1 n2 →
        l ∈ innerLoop books sel rel i n1 j rest := by
  intro rest
  induction rest with
  | nil => intro j m n2 h; simp at h
  | cons nx rest ih =>
      intro j m n2 hm l hl
      cases m with
      | zero =>
          rw [List.getElem?_cons_zero] at hm
          injection hm with hm
          subst hm
          exact List.mem_append.mpr (Or.inl (by simpa using hl))
      | succ m =>
          rw [List.getElem?_cons_succ] at hm
          have harith : j + (m + 1) = j + 1 + m := by omega
          rw [harith] at hl
          exact List.mem_append.mpr (Or.inr (ih hm hl))

theorem linkFor_subset_outerLoop {books : List Book} {sel : Option String}
    {rel : List String} :
    ∀ {ns : List GraphNode} {i a b : ℕ} {n1 n2 : GraphNode},
      ns[a]? = some n1 → ns[b]? = some n2 → a < b →
      ∀ {l : Link}, l ∈ linkFor books sel rel (i + a) (i + b) n1 n2 →
        l ∈ outerLoop books sel rel i ns := by
  intro ns
  induction ns with
  | nil => intro i a b n1 n2 h; simp at h
  | cons nx rest ih =>
      intro i a b n1 n2 ha hb hab l hl
      cases a with
      | zero =>
          rw [List.getElem?_cons_zero] at ha
          injection ha with ha
          subst ha
          cases b with
          | zero => omega
          | succ m =>
              rw [List.getElem?_cons_succ] at hb
              have h2 : i + (m + 1) = i + 1 + m := by omega
              have h0 : i + 0 = i := by omega
              rw [h2, h0] at hl
              exact List.mem_append.mpr (Or.inl (linkFor_subset_innerLoop hb hl))
      | succ a =>
          cases b with
          | zero => omega
          | succ m =>
              rw [List.getElem?_cons_succ] at ha
              rw [List.getElem?_cons_succ] at hb
              have h1 : i + (a + 1) = i + 1 + a := by omega
              have h2 : i + (m + 1) = i + 1 + m := by omega
              rw [h1, h2] at hl
              exact List.mem_append.mpr (Or.inr (ih ha hb (by omega) hl))

theorem pairwise_of_length_le_one {α : Type} {R : α → α → Prop} :
    ∀ {l : List α}, l.length ≤ 1 → List.Pairwise R l
  | [], _ => List.Pairwise.nil
  | [_], _ => by simp
  | _ :: _ :: _, h => by simp at h

theorem linkFor_length_le {books : List Book} {sel : Option String}
    {rel : List String} {i j : ℕ} {n1 n2 : GraphNode} :
    (linkFor books sel rel i j n1 n2).length ≤ 1 := by
  unfold linkFor
  split
  · dsimp only
    split
    · simp
    · simp
  · simp

theorem innerLoop_endpoints {books : List Book} {sel : Option String}
    {rel : List String} {i : ℕ} {n1 : GraphNode} :
    ∀ {rest : List GraphNode} {j : ℕ} {l : Link},
      l ∈ innerLoop books sel rel i n1 j rest →
      l.source = n1.id ∧ l.target ∈ rest.map GraphNode.id := by
  intro rest
  induction rest with
  | nil => intro j l h; exact absurd h (List.not_mem_nil _)
  | cons n2 rest ih =>
      intro j l h
      rcases List.mem_append.mp h with h | h
      · obtain ⟨hs, ht, _⟩ := linkFor_mem_spec h
        exact ⟨hs, by rw [List.map_cons]; exact ht ▸ List.mem_cons_self _ _⟩
      · obtain ⟨hs, ht⟩ := ih h
        exact ⟨hs, by rw [List.map_cons]; exact List.mem_cons_of_mem _ ht⟩

theorem outerLoop_endpoints {books : List Book} {sel : Option String}
    {rel : List String} :
    ∀ {ns : List GraphNode} {i : ℕ} {l : Link},
      l ∈ outerLoop books sel rel i ns →
      l.source ∈ ns.map GraphNode.id ∧ l.target ∈ ns.map GraphNode.id := by
  intro ns
  induction ns with
  | nil => intro i l h; exact absurd h (List.not_mem_nil _)
  | cons n1 rest ih =>
      intro i l h
      rcases List.mem_append.mp h with h | h
      · obtain ⟨hs, ht⟩ := innerLoop_endpoints h
        refine ⟨by rw [List.map_cons]; exact hs ▸ List.mem_cons_self _ _, ?_⟩
        rw [List.map_cons]
        exact List.mem_cons_of_mem _ ht
      · obtain ⟨hs, ht⟩ := ih h
        exact ⟨by rw [List.map_cons]; exact List.mem_cons_of_mem _ hs,
          by rw [List.map_cons]; exact List.mem_cons_of_mem _ ht⟩

theorem innerLoop_pairwise {books : List Book} {sel : Option String}
    {rel : List String} {i : ℕ} {n1 : GraphNode} :
    ∀ {rest : List GraphNode} {j : ℕ},
      (rest.map GraphNode.id).Nodup → n1.id ∉ rest.map GraphNode.id →
      List.Pairwise (fun x y => ¬ samePair x y)
        (innerLoop books sel rel i n1 j rest) := by
  intro rest
  induction rest with
  | nil => intro j _ _; exact List.Pairwise.nil
  | cons n2 rest ih =>
      intro j hnodup hn1
      rw [List.map_cons, List.nodup_cons] at hnodup
      obtain ⟨hn2, hrest⟩ := hnodup
      rw [List.map_cons, List.mem_cons, not_or] at hn1
      obtain ⟨hne, hn1r⟩ := hn1
      apply List.pairwise_append.mpr
      refine ⟨pairwise_of_length_le_one linkFor_length_le, ih hrest hn1r, ?_⟩
      intro x hx y hy hsame
      obtain ⟨hxs, hxt, _⟩ := linkFor_mem_spec hx
      obtain ⟨hys, hyt⟩ := innerLoop_endpoints hy
      rcases hsame with ⟨_, h2⟩ | ⟨h1, _⟩
      · exact hn2 (by rw [← hxt, h2]; exact hyt)
      · exact hn1r (by rw [← hxs, h1]; exact hyt)

theorem outerLoop_pairwise {books : List Book} {sel : Option String}
    {rel : List String} :
    ∀ {ns : List GraphNode} {i : ℕ},
      (ns.map GraphNode.id).Nodup →
      List.Pairwise (fun x y => ¬ samePair x y) (outerLoop books sel rel i ns) := by
  intro ns
  induction ns with
  | nil => intro i _; exact List.Pairwise.nil
  | cons n1 rest ih =>
      intro i hnodup
      rw [List.map_cons, List.nodup_cons] at hnodup
      obtain ⟨hn1, hrest⟩ := hnodup
      apply List.pairwise_append.mpr
      refine ⟨innerLoop_pairwise hrest hn1, ih hrest, ?_⟩
      intro x hx y hy hsame
      obtain ⟨hxs, _⟩ := innerLoop_endpoints hx
      obtain ⟨hys, hyt⟩ := outerLoop_endpoints hy
      rcases hsame with ⟨h1, _⟩ | ⟨h1, _⟩
      · exact hn1 (by rw [← hxs, h1]; exact hys)
      · exact hn1 (by rw [← hxs, h1]; exact hyt)

theorem buildNodes_map_id {sel : Option String} {rel : List String} {now : ℚ} :
    ∀ {bs : List Book} {k : ℕ}, (∀ b ∈ bs, b.id.isSome) →
      (buildNodes sel rel now bs k).map GraphNode.id =
        bs.map (fun b => b.id.getD "") := by
  intro bs
  induction bs with
  | nil => intro k _; rfl
  | cons b bs ih =>
      intro k hpres
      obtain ⟨s, hs⟩ := Option.isSome_iff_exists.mp
        (hpres b (List.mem_cons_self b bs))
      have htail := ih (k := k + 1) (fun b hb => hpres b (List.mem_cons_of_mem _ hb))
      simp [buildNodes, mkNode_id, nodeIdOf, hs, htail]

theorem getD_map_nodup :
    ∀ {bs : List Book}, (∀ b ∈ bs, b.id.isSome) → (bs.map Book.id).Nodup →
      (bs.map (fun b => b.id.getD "")).Nodup := by
  intro bs
  induction bs with
  | nil => intro _ _; exact List.Pairwise.nil
  | cons b bs ih =>
      intro hpres hnodup
      rw [List.map_cons, List.nodup_cons] at hnodup ⊢
      obtain ⟨hhead, htail⟩ := hnodup
      refine ⟨?_, ih (fun b hb => hpres b (List.mem_cons_of_mem _ hb)) htail⟩
      intro hmem
      obtain ⟨b2, hb2, heq⟩ := List.mem_map.mp hmem
      obtain ⟨s, hs⟩ := Option.isSome_iff_exists.mp
        (hpres b (List.mem_cons_self b bs))
      obtain ⟨s2, hs2⟩ := Option.isSome_iff_exists.mp
        (hpres b2 (List.mem_cons_of_mem _ hb2))
      apply hhead
      have hss : b.id = b2.id := by
        rw [hs, hs2]
        rw [hs, hs2] at heq
        simpa using heq.symm
      rw [hss]
      exact List.mem_map.mpr ⟨b2, hb2, rfl⟩

/-- C6: with no selection every node has opacity 1 and every link is visible;
with a selected node, each node is related exactly when its id is in the
related set, its opacity is 1 when related or selected and 1/5 otherwise, and
a link is visible exactly when both endpoint ids are in the related set. -/
theorem visibility_derivation (books : List Book) (rel : List String) (now : ℚ) :
    ((∀ n ∈ (graphData books none rel now).nodes, n.opacity = 1) ∧
      (∀ l ∈ (graphData books none rel now).links, l.isVisible = true)) ∧
    (∀ sid : String,
      (∀ n ∈ (graphData books (some sid) rel now).nodes,
        n.isRelated = rel.contains n.id ∧
          n.opacity = if n.isRelated || n.isSelected then (1 : ℚ) else 1/5) ∧
      (∀ l ∈ (graphData books (some sid) rel now).links,
        l.isVisible = (rel.contains l.source && rel.contains l.target))) := by
  refine ⟨⟨?_, ?_⟩, ?_⟩
  · intro n hn
    obtain ⟨b, _, i, rfl⟩ := mem_graphData_nodes hn
    rfl
  · intro l hl
    obtain ⟨i2, j2, n1, n2, _, _, hlf⟩ := mem_outerLoop (mem_graphData_links hl)
    obtain ⟨_, _, hv, _⟩ := linkFor_mem_spec hlf
    exact hv
  · intro sid
    refine ⟨?_, ?_⟩
    · intro n hn
      obtain ⟨b, _, i, rfl⟩ := mem_graphData_nodes hn
      exact ⟨rfl, mkNode_opacity_some sid rel now b i⟩
    · intro l hl
      obtain ⟨i2, j2, n1, n2, _, _, hlf⟩ := mem_outerLoop (mem_graphData_links hl)
      obtain ⟨hs, ht, hv, _⟩ := linkFor_mem_spec hlf
      rw [hv, hs, ht]
      rfl

/-- C8: resetting (explicitly or by re-clicking the selected node) yields the
idle observables: no selected id, empty related set, and the graph rebuilt
from that state has every node at opacity 1 and every link visible. -/
theorem reset_restores_idle (books : List Book) (st : SelState) (now : ℚ)
    (nid : String) (enrich : Option (List ThemeEntry)) :
    (handleReset st).selectedNodeId = none ∧
    (handleReset st).relatedNodeIds = [] ∧
    (∀ n ∈ (graphData books (handleReset st).selectedNodeId
        (handleReset st).relatedNodeIds now).nodes, n.opacity = 1) ∧
    (∀ l ∈ (graphData books (handleReset st).selectedNodeId
        (handleReset st).relatedNodeIds now).links, l.isVisible = true) ∧
    (st.selectedNodeId = some nid →
      handleNodeClick books st nid enrich = [handleReset st]) := by
  refine ⟨rfl, rfl, ?_, ?_, ?_⟩
  · intro n hn
    obtain ⟨b, _, i, rfl⟩ := mem_graphData_nodes hn
    rfl
  · intro l hl
    obtain ⟨i2, j2, n1, n2, _, _, hlf⟩ := mem_outerLoop (mem_graphData_links hl)
    obtain ⟨_, _, hv, _⟩ := linkFor_mem_spec hlf
    exact hv
  · intro hsel
    simp [handleNodeClick, hsel]

/-- C9: a node is recent exactly when now minus the parsed date is between 0
and 30 days (in milliseconds) inclusive; a missing or unparseable date is
never recent. -/
theorem isRecent_window (sel : Option String) (rel : List String) (now : ℚ)
    (b : Book) (i : ℕ) :
    ((mkNode sel rel now b i).isRecent = isRecentlyRead now b.dateRead) ∧
    (∀ d : ℚ, isRecentlyRead now (DateVal.ts d) = true ↔
        0 ≤ now - d ∧ now - d ≤ 30 * (1000 * 60 * 60 * 24)) ∧
    isRecentlyRead now DateVal.missing = false ∧
    isRecentlyRead now DateVal.invalid = false := by
  refine ⟨rfl, ?_, rfl, rfl⟩
  intro d
  unfold isRecentlyRead
  dsimp only
  rw [Bool.and_eq_true, decide_eq_true_iff, decide_eq_true_iff]
  have hc : (0:ℚ) < 1000 * 60 * 60 * 24 := by norm_num
  rw [div_le_iff₀ hc, le_div_iff₀ hc]
  constructor
  · rintro ⟨h1, h2⟩
    constructor <;> linarith
  · rintro ⟨h1, h2⟩
    constructor <;> linarith

/-- C10: navigation passes exactly the books whose rating parsed to a number
strictly above zero, and when no book survives the filter the outcome is an
error, not a navigation. -/
theorem upload_filters_unrated (parsedBooks : List ParsedBook) :
    (∀ out, processFile parsedBooks = .navigate out →
        out = filterReadBooks parsedBooks ∧
        ∀ b ∈ out, ∃ q : ℚ, b.rating = .num q ∧ 0 < q) ∧
    (filterReadBooks parsedBooks = [] →
      ∃ msg, processFile parsedBooks = .error msg) := by
  constructor
  · intro out hout
    unfold processFile at hout
    split at hout
    · exact absurd hout (by simp)
    · dsimp only at hout
      split at hout
      · exact absurd hout (by simp)
      · injection hout with hout
        subst hout
        refine ⟨rfl, ?_⟩
        intro b hb
        rw [filterReadBooks, List.mem_filter] at hb
        obtain ⟨_, hpos⟩ := hb
        rw [decide_eq_true_iff] at hpos
        cases hr : b.rating with
        | nan => rw [hr] at hpos; simp [parseFloatOr0] at hpos
        | num q =>
            rw [hr] at hpos
            by_cases hq : q = 0
            · subst hq
              simp [parseFloatOr0] at hpos
            · refine ⟨q, rfl, ?_⟩
              simpa [parseFloatOr0, hq] using hpos
  · intro hempty
    unfold processFile
    split
    · exact ⟨_, rfl⟩
    · dsimp only
      rw [hempty]
      simp

/-- C2 (code bug): after a reload the set behind the panel holds bookmark
objects, not key strings, so toggling the identical tuple appends a second
stored entry with the same key instead of removing the existing one. -/
theorem bookmark_reload_toggle_bug :
    ((handleBookmarkClick "T" "A" (loadBookmarkedQuotes oneStoredBookmark)
        "Q" "Th" "2026-01-02").stored.map Bookmark.key =
      [bookmarkKey "T" "A" "Q" "Th", bookmarkKey "T" "A" "Q" "Th"]) ∧
    ¬ ((handleBookmarkClick "T" "A" (loadBookmarkedQuotes oneStoredBookmark)
        "Q" "Th" "2026-01-02").stored.map Bookmark.key).Nodup := by
  constructor <;> decide

/-- Counterexample to C1 as stated: among five books all sharing one theme,
the code creates an edge between b3 and b4, although under the claimed
ranking (similarityScore descending, stable input-order tie-break) b4 is not
among the top three candidates of b3 and b3 is not among the top three
candidates of b4, so for no draw of k in two-or-three does either book
select the other; an edge from b3 to the beyond-top-k book b4 exists. -/
theorem no_topk_cex :
    (∃ l ∈ (graphData fiveBooksOneTheme none [] 0).links,
        l.source = "b3" ∧ l.target = "b4") ∧
    ((specRankedPartners fiveBooksOneTheme 3 (mkBook (some "b3") ["X"])).map
        (fun p => nodeIdOf p.2 p.1) = ["b0", "b1", "b2", "b4"]) ∧
    ((specRankedPartners fiveBooksOneTheme 4 (mkBook (some "b4") ["X"])).map
        (fun p => nodeIdOf p.2 p.1) = ["b0", "b1", "b2", "b3"]) ∧
    ("b4" ∉ specTopKIds fiveBooksOneTheme 3 (mkBook (some "b3") ["X"]) 2) ∧
    ("b4" ∉ specTopKIds fiveBooksOneTheme 3 (mkBook (some "b3") ["X"]) 3) ∧
    ("b3" ∉ specTopKIds fiveBooksOneTheme 4 (mkBook (some "b4") ["X"]) 2) ∧
    ("b3" ∉ specTopKIds fiveBooksOneTheme 4 (mkBook (some "b4") ["X"]) 3) := by
  refine ⟨?_, ?_, ?_, ?_, ?_, ?_, ?_⟩ <;> decide

/-- Counterexample to C4 as stated: with two id-less books the loop body
looks both books up with the same synthesized id, so it links book-0 and
book-1 although their theme lists are disjoint. -/
theorem edge_invariants_cex :
    ((graphData twoBooksNoId none [] 0).nodes.map (fun n => (n.id, n.themes)) =
      [("book-0", [ThemeEntry.str "X"]), ("book-1", [ThemeEntry.str "Y"])]) ∧
    ((graphData twoBooksNoId none [] 0).links.map (fun l => (l.source, l.target)) =
      [("book-0", "book-1")]) ∧
    (twoBooksNoId.map themeNames = [["X"], ["Y"]]) ∧
    ((["X"] : List String).filter (fun t => (["Y"] : List String).contains t) = []) := by
  refine ⟨?_, ?_, ?_, ?_⟩ <;> decide

/-- Counterexample to C5 as stated: when the source book lists the shared
name twice the weight counts both occurrences, so it is 0.9 and not
0.7 + 0.1 times the single shared theme name. -/
theorem edge_weight_cex :
    ((graphData dupThemeBooks none [] 0).links =
      [{ source := "a", target := "b", theme := "X",
         strength := 7/10 + ((2 : ℕ) : ℚ) * (1/10), color := "#00CED1",
         isVisible := true }]) ∧
    ((dupThemeBooks.map themeNames) = [["X", "X"], ["X"]]) ∧
    (List.dedup ((["X", "X"] : List String).filter
        (fun t => (["X"] : List String).contains t))).length = 1 ∧
    (7/10 + ((2 : ℕ) : ℚ) * (1/10) ≠ 7/10 + (1 : ℚ) * (1/10)) := by
  refine ⟨rfl, by decide, by decide, by norm_num⟩

/-- Counterexample to C3 as stated: while the enrichment call for the
clicked node is in flight, the selected id is already set but the related
set still has its previous (empty) value. -/
theorem selected_in_related_cex :
    ∃ st ∈ handleNodeClick oneUnenrichedBook initState "b" none,
      st.selectedNodeId = some "b" ∧ st.relatedNodeIds.contains "b" = false := by
  decide

theorem graphData_links_of_two {books : List Book} {sel : Option String}
    {rel : List String} {now : ℚ} (h2 : 2 ≤ books.length) :
    (graphData books sel rel now).links =
      outerLoop books sel rel 0 (buildNodes sel rel now books 0) := by
  have hne : books.isEmpty = false := by
    cases books with
    | nil => simp at h2
    | cons b bs => rfl
  have hlen : 2 ≤ (buildNodes sel rel now books 0).length := by
    rw [buildNodes_length]
    exact h2
  simp [graphData, hne, hlen]

/-- C4 (amended: every book carries an id and the ids are pairwise distinct):
the endpoint books of every edge share at least one theme name, and no
unordered endpoint pair occurs twice in the link list. -/
theorem edge_shared_theme_and_no_dup (books : List Book) (sel : Option String)
    (rel : List String) (now : ℚ)
    (hpres : ∀ b ∈ books, b.id.isSome)
    (hnodup : (books.map Book.id).Nodup) :
    (∀ l ∈ (graphData books sel rel now).links,
      ∀ b1 ∈ books, ∀ b2 ∈ books,
        b1.id = some l.source → b2.id = some l.target →
        ∃ t, t ∈ themeNames b1 ∧ t ∈ themeNames b2) ∧
    List.Pairwise (fun x y => ¬ samePair x y) (graphData books sel rel now).links := by
  constructor
  · intro l hl b1 hb1 b2 hb2 hid1 hid2
    obtain ⟨i2, j2, n1, n2, _, _, hlf⟩ := mem_outerLoop (mem_graphData_links hl)
    obtain ⟨hs, ht, _, book1, book2, rest, hf1, hf2, hshared, _⟩ :=
      linkFor_mem_spec hlf
    obtain ⟨hm1, hid1f⟩ := findBook_eq_some hpres hf1
    obtain ⟨hm2, hid2f⟩ := findBook_eq_some hpres hf2
    have e1 : b1 = book1 := book_id_inj hnodup hb1 hm1 (by rw [hid1, hid1f, hs])
    have e2 : b2 = book2 := book_id_inj hnodup hb2 hm2 (by rw [hid2, hid2f, ht])
    have hmemf : l.theme ∈ (themeNames book1).filter
        (fun t => (themeNames book2).contains t) := by
      rw [hshared]
      exact List.mem_cons_self _ _
    refine ⟨l.theme, ?_, ?_⟩
    · rw [e1]
      exact (List.mem_filter.mp hmemf).1
    · rw [e2]
      have hc := (List.mem_filter.mp hmemf).2
      simpa using hc
  · unfold graphData
    split
    · exact List.Pairwise.nil
    · dsimp only
      split
      · apply outerLoop_pairwise
        rw [buildNodes_map_id hpres]
        exact getD_map_nodup hpres hnodup
      · exact List.Pairwise.nil

/-- Witness for the amended C4, at the three-book scenario list of the spec. -/
theorem edge_shared_theme_and_no_dup_witness :
    (∀ l ∈ (graphData scenarioBooks none [] 0).links,
      ∀ b1 ∈ scenarioBooks, ∀ b2 ∈ scenarioBooks,
        b1.id = some l.source → b2.id = some l.target →
        ∃ t, t ∈ themeNames b1 ∧ t ∈ themeNames b2) ∧
    List.Pairwise (fun x y => ¬ samePair x y)
      (graphData scenarioBooks none [] 0).links :=
  edge_shared_theme_and_no_dup scenarioBooks none [] 0 (by decide) (by decide)

/-- C5 (amended: every book carries an id and the ids are pairwise distinct;
the weight counts the entries of the source theme list occurring in the
target theme list, with multiplicity): each edge carries the first shared
entry as its theme and weight 0.7 plus 0.1 per shared entry. -/
theorem edge_attrs (books : List Book) (sel : Option String)
    (rel : List String) (now : ℚ)
    (hpres : ∀ b ∈ books, b.id.isSome)
    (hnodup : (books.map Book.id).Nodup)
    (l : Link) (hl : l ∈ (graphData books sel rel now).links)
    (b1 : Book) (hb1 : b1 ∈ books) (b2 : Book) (hb2 : b2 ∈ books)
    (hid1 : b1.id = some l.source) (hid2 : b2.id = some l.target) :
    ∃ rest,
      (themeNames b1).filter (fun t => (themeNames b2).contains t) =
        l.theme :: rest ∧
      l.strength = 7/10 + ((l.theme :: rest).length : ℚ) * (1/10) := by
  obtain ⟨i2, j2, n1, n2, _, _, hlf⟩ := mem_outerLoop (mem_graphData_links hl)
  obtain ⟨hs, ht, _, book1, book2, rest, hf1, hf2, hshared, hstr⟩ :=
    linkFor_mem_spec hlf
  obtain ⟨hm1, hid1f⟩ := findBook_eq_some hpres hf1
  obtain ⟨hm2, hid2f⟩ := findBook_eq_some hpres hf2
  have e1 : b1 = book1 := book_id_inj hnodup hb1 hm1 (by rw [hid1, hid1f, hs])
  have e2 : b2 = book2 := book_id_inj hnodup hb2 hm2 (by rw [hid2, hid2f, ht])
  refine ⟨rest, ?_, hstr⟩
  rw [e1, e2]
  exact hshared

/-- Witness for the amended C5, at the link between the first two scenario
books. -/
theorem edge_attrs_witness :
    ∃ rest,
      (themeNames (mkBook (some "a") ["X"])).filter
          (fun t => (themeNames (mkBook (some "b") ["X", "Y"])).contains t) =
        linkAB.theme :: rest ∧
      linkAB.strength = 7/10 + ((linkAB.theme :: rest).length : ℚ) * (1/10) :=
  edge_attrs scenarioBooks none [] 0 (by decide) (by decide) linkAB
    (by
      have h : (graphData scenarioBooks none [] 0).links = [linkAB, linkBC] := rfl
      rw [h]
      exact List.mem_cons_self _ _)
    (mkBook (some "a") ["X"]) (by decide)
    (mkBook (some "b") ["X", "Y"]) (by decide) (by decide) (by decide)

/-- C1 (amended): the builder performs no ranking by similarityScore, no
random top-k selection and no truncation of any kind; for every index pair
a before b in the node list whose looked-up endpoint books share at least
one theme name, the output contains an edge between the two nodes, however
many candidate partners the source book has. -/
theorem edge_completeness (books : List Book) (sel : Option String)
    (rel : List String) (now : ℚ)
    (a b : ℕ) (hab : a < b) (na nb : GraphNode)
    (hna : (buildNodes sel rel now books 0)[a]? = some na)
    (hnb : (buildNodes sel rel now books 0)[b]? = some nb)
    (bk1 bk2 : Book)
    (hf1 : findBook books a na.id = some bk1)
    (hf2 : findBook books b nb.id = some bk2)
    (t : String) (ht1 : t ∈ themeNames bk1) (ht2 : t ∈ themeNames bk2) :
    ∃ l ∈ (graphData books sel rel now).links,
      l.source = na.id ∧ l.target = nb.id := by
  have hf1z : findBook books (0 + a) na.id = some bk1 := by
    rw [Nat.zero_add]
    exact hf1
  have hf2z : findBook books (0 + b) nb.id = some bk2 := by
    rw [Nat.zero_add]
    exact hf2
  have htf : t ∈ (themeNames bk1).filter (fun u => (themeNames bk2).contains u) :=
    List.mem_filter.mpr ⟨ht1, by simpa using ht2⟩
  cases hsh : (themeNames bk1).filter (fun u => (themeNames bk2).contains u) with
  | nil =>
      rw [hsh] at htf
      exact absurd htf (List.not_mem_nil t)
  | cons t0 tl =>
      have hex : ∃ l ∈ linkFor books sel rel (0 + a) (0 + b) na nb,
          l.source = na.id ∧ l.target = nb.id := by
        unfold linkFor
        rw [hf1z, hf2z]
        dsimp only
        rw [hsh]
        exact ⟨_, List.mem_singleton.mpr rfl, rfl, rfl⟩
      obtain ⟨l, hlmem, hls, hlt⟩ := hex
      have houter := linkFor_subset_outerLoop hna hnb hab hlmem
      have hblen : b < books.length := by
        obtain ⟨hn, _⟩ := List.getElem?_eq_some.mp hnb
        rwa [buildNodes_length] at hn
      have h2 : 2 ≤ books.length := by omega
      refine ⟨l, ?_, hls, hlt⟩
      rw [graphData_links_of_two h2]
      exact houter

/-- Witness for the amended C1, at the first two scenario books sharing X. -/
theorem edge_completeness_witness :
    ∃ l ∈ (graphData scenarioBooks none [] 0).links,
      l.source = (mkNode none [] 0 (mkBook (some "a") ["X"]) 0).id ∧
      l.target = (mkNode none [] 0 (mkBook (some "b") ["X", "Y"]) 1).id :=
  edge_completeness scenarioBooks none [] 0 0 1 (by decide)
    (mkNode none [] 0 (mkBook (some "a") ["X"]) 0)
    (mkNode none [] 0 (mkBook (some "b") ["X", "Y"]) 1) rfl rfl
    (mkBook (some "a") ["X"]) (mkBook (some "b") ["X", "Y"])
    (by decide) (by decide) "X" (by decide) (by decide)

theorem relatedFrom_nil (nid : String) : ∀ (bs : List Book) (i : ℕ),
    relatedFrom [] nid bs i = [] := by
  intro bs
  induction bs with
  | nil => intro i; rfl
  | cons b bs ih =>
      intro i
      unfold relatedFrom
      dsimp only
      split
      · exact ih (i + 1)
      · simpa using ih (i + 1)

/-- C3 (amended): at every quiescent observable point — the final state of a
click whose node resolves to a book, and any reset state — a non-null
selected id is a member of the related set. While the enrichment call is in
flight this does not hold: the related set still has its previous value. -/
theorem getLast?_single {α : Type} (a : α) : ([a] : List α).getLast? = some a := rfl

theorem getLast?_pair {α : Type} (a b : α) :
    ([a, b] : List α).getLast? = some b := rfl

theorem selected_in_related_quiescent (books : List Book) (st : SelState)
    (nodeId : String) (enrich : Option (List ThemeEntry))
    (hfound : (findBookByNodeId books nodeId).isSome)
    (stf : SelState)
    (hlast : (handleNodeClick books st nodeId enrich).getLast? = some stf)
    (nid : String) (hsel : stf.selectedNodeId = some nid) :
    stf.relatedNodeIds.contains nid = true := by
  unfold handleNodeClick at hlast
  split at hlast
  · rw [getLast?_single] at hlast
    injection hlast with hlast
    rw [← hlast] at hsel
    simp [handleReset] at hsel
  · cases hfind : findBookByNodeId books nodeId with
    | none =>
        rw [hfind] at hfound
        simp at hfound
    | some book =>
        rw [hfind] at hlast
        split at hlast
        next heq => exact absurd heq (by simp)
        next book2 heq =>
            split at hlast
            · rw [getLast?_pair] at hlast
              injection hlast with hlast
              rw [← hlast] at hsel ⊢
              dsimp only at hsel ⊢
              injection hsel with hsel
              rw [← hsel]
              simp [computeRelated]
            · rw [getLast?_single] at hlast
              injection hlast with hlast
              rw [← hlast] at hsel ⊢
              dsimp only at hsel ⊢
              injection hsel with hsel
              rw [← hsel]
              simp [computeRelated]

/-- Witness for the amended C3: the click of scenario node a ends in a state
whose related set holds the selected id. -/
theorem selected_in_related_quiescent_witness :
    scenarioClickDone.relatedNodeIds.contains "a" = true :=
  selected_in_related_quiescent scenarioBooks initState "a" none (by decide)
    scenarioClickDone (by decide) "a" (by decide)

/-- C7: a click on an unenriched node whose enrichment call fails still ends
Selected, showing the original empty-theme record, with the related set the
singleton of the clicked id; the in-flight state precedes it. -/
theorem failed_enrichment_selected (books : List Book) (st : SelState)
    (nodeId : String) (book : Book)
    (hnotsel : st.selectedNodeId ≠ some nodeId)
    (hfound : findBookByNodeId books nodeId = some book)
    (hempty : book.themes = []) :
    handleNodeClick books st nodeId none =
      [{ st with selectedNodeId := some nodeId, isAnalyzing := true },
        { st with
            selectedNodeId := some nodeId
            isAnalyzing := false
            selectedBook := some book
            relatedNodeIds := [nodeId] }] := by
  have hne : (st.selectedNodeId == some nodeId) = false := by
    simpa using hnotsel
  have hth : themeNames book = [] := by
    rw [themeNames, hempty]
    rfl
  simp [handleNodeClick, hne, hfound, hempty, mergeEnrichment, computeRelated,
    hth, relatedFrom_nil]

/-- Witness for C7, at the single unenriched book. -/
theorem failed_enrichment_selected_witness :
    handleNodeClick oneUnenrichedBook initState "b" none =
      [{ initState with selectedNodeId := some "b", isAnalyzing := true },
        { initState with
            selectedNodeId := some "b"
            isAnalyzing := false
            selectedBook := some (mkBook (some "b") [])
            relatedNodeIds := ["b"] }] :=
  failed_enrichment_selected oneUnenrichedBook initState "b"
    (mkBook (some "b") []) (by decide) (by decide) (by decide)

end ReadingGraph
